import Mathlib

/-!
Shallow embedding of the bearer-token authentication core of the repository:
the JWKS key cache (src/app/JwksCache.py) and the token verifier and request
middleware (src/app/oauth2_middleware.py).

Modelling conventions:
- Machine time is an `Int` (Unix seconds); every function takes the current
  time explicitly where the source calls time.time().
- The network is a function `Nat → FetchResult`: the outcome of the i-th HTTP
  GET performed during one call.  A `FetchResult.err` collapses the three
  failure modes of the source (network error, raise_for_status on a non-2xx
  status, malformed JSON body), all of which raise before any cache field is
  assigned.
- Python exceptions are an explicit `Except PyErr` channel; try/except blocks
  become matches on that channel.  PyJWT raises only subclasses of
  InvalidTokenError for token problems, and key construction raises
  ValueError; both are subclasses of Exception, so the source's except
  clauses catch everything modelled here.
- A JWK's algorithm-specific material is abstracted to an opaque string; a
  signature verifies exactly when the token was signed by the key whose
  material the verifier reconstructed.
-/

namespace McpAuth

/-- One JSON Web Key entry of a JWKS document.  `kid` is `none` when the entry
lacks a "kid" member; `material` abstracts the algorithm-specific public key
material (modulus and exponent for RSA, curve and coordinates for EC). -/
structure JWK where
  kid : Option String
  kty : String
  material : String
deriving Repr, DecidableEq

/-- Outcome of one HTTP GET of the JWKS URI as observed by `JwksCache.refresh`:
either the parsed "keys" list of the JSON body together with the value of the
Cache-Control response header (the empty string when the header is absent,
mirroring headers.get with a default), or a failure. -/
inductive FetchResult where
  | ok (keys : List JWK) (cacheControl : String)
  | err
deriving Repr, DecidableEq

/-- Numeric value of a decimal digit character, `none` otherwise. -/
def digitVal (c : Char) : Option Nat :=
  if c.isDigit then some (c.toNat - '0'.toNat) else none

/-- Consumes the remainder of a Python integer literal: decimal digits with
single underscores allowed strictly between digits. -/
def parseDigitsAux : Nat → List Char → Option Nat
  | acc, [] => some acc
  | _, ['_'] => none
  | acc, '_' :: c :: cs =>
    match digitVal c with
    | some d => parseDigitsAux (acc * 10 + d) cs
    | none => none
  | acc, c :: cs =>
    match digitVal c with
    | some d => parseDigitsAux (acc * 10 + d) cs
    | none => none

/-- Parses a nonempty run of decimal digits (with single underscores between
digits), the body of a Python integer literal. -/
def parseDigits : List Char → Option Nat
  | [] => none
  | c :: cs =>
    match digitVal c with
    | some d => parseDigitsAux d cs
    | none => none

/-- Python str.strip(): drop leading and trailing whitespace. -/
def pyStrip (cs : List Char) : List Char :=
  ((cs.dropWhile Char.isWhitespace).reverse.dropWhile Char.isWhitespace).reverse

/-- Python int(str) on a decimal string: optional surrounding whitespace, an
optional sign, then digits with single underscores between digits. -/
def pyInt (cs : List Char) : Option Int :=
  match pyStrip cs with
  | '+' :: rest => (parseDigits rest).map (fun n => (n : Int))
  | '-' :: rest => (parseDigits rest).map (fun n => -(n : Int))
  | rest => (parseDigits rest).map (fun n => (n : Int))

/-- Tests whether the second list starts with the first. -/
def listStartsWith : List Char → List Char → Bool
  | [], _ => true
  | _ :: _, [] => false
  | p :: ps, c :: cs => p == c && listStartsWith ps cs

/-- Splitting step for Python str.split(","): accumulates the current piece in
reverse and cuts at every comma. -/
def splitOnCommaAux : List Char → List Char → List (List Char)
  | [], acc => [acc.reverse]
  | c :: cs, acc =>
    if c = ',' then acc.reverse :: splitOnCommaAux cs []
    else splitOnCommaAux cs (c :: acc)

/-- Python str.split(","): the comma-separated pieces, in order. -/
def splitOnComma (cs : List Char) : List (List Char) :=
  splitOnCommaAux cs []

/-- Scans the comma-separated Cache-Control directives in order and returns the
value of the first directive that, after stripping and lowercasing, starts with
"max-age=" and whose value parses as an integer; directives whose value fails
to parse are skipped, exactly like the loop of _parse_ttl_from_headers. -/
def findMaxAge : List (List Char) → Option Int
  | [] => none
  | p :: rest =>
    let q := (pyStrip p).map Char.toLower
    if listStartsWith "max-age=".toList q then
      match pyInt (q.drop 8) with
      | some v => some v
      | none => findMaxAge rest
    else findMaxAge rest

/-- Fallback TTL in seconds when the JWKS response lacks usable cache headers
(DEFAULT_JWKS_TTL in JwksCache.py). -/
def DEFAULT_JWKS_TTL : Int := 3600

/-- State of the JWKS cache: the kid-to-JWK dictionary, the expiry timestamp,
and the configured fallback TTL (constructor argument, 3600 by default). -/
structure JwksCache where
  keys_by_kid : List (String × JWK)
  expires_at : Int
  ttl_seconds : Int
deriving Repr, DecidableEq

/-- Lookup in the kid-to-JWK dictionary (Python dict lookup; the insertion
discipline below keeps keys unique). -/
def dictGet : List (String × JWK) → String → Option JWK
  | [], _ => none
  | (k0, v) :: rest, k => if k0 = k then some v else dictGet rest k

/-- Insertion with Python dict semantics: overwrite in place when the key is
already bound, append otherwise. -/
def dictInsert (m : List (String × JWK)) (k : String) (v : JWK) : List (String × JWK) :=
  if k ∈ m.map Prod.fst then
    m.map (fun p => if p.1 = k then (k, v) else p)
  else m ++ [(k, v)]

/-- One step of the dict comprehension of JwksCache.refresh: an entry lacking a
kid is skipped, an entry with a kid is bound (later entries overwrite earlier
ones with the same kid). -/
def jwkStep (m : List (String × JWK)) (j : JWK) : List (String × JWK) :=
  match j.kid with
  | some kid => dictInsert m kid j
  | none => m

/-- Builds the kid-to-JWK dictionary from the fetched "keys" list, mirroring
the dict comprehension of JwksCache.refresh. -/
def buildKeyMap (keys : List JWK) : List (String × JWK) :=
  keys.foldl jwkStep []

/-- Honor a Cache-Control max-age directive when present and parseable, else
fall back to the configured TTL (JwksCache._parse_ttl_from_headers). -/
def JwksCache.parse_ttl_from_headers (cacheControl : String) (ttl_seconds : Int) : Int :=
  (findMaxAge (splitOnComma cacheControl.toList)).getD ttl_seconds

/-- JwksCache.refresh: fetch and cache the JWKS.  On fetch failure the
exception propagates to the caller and no cache field changes (in the source
every failing operation precedes the assignments).  On success the key map is
rebuilt wholesale from the fetched entries and the expiry recomputed from the
response headers. -/
def JwksCache.refresh (self : JwksCache) (f : FetchResult) (now : Int) :
    Except Unit JwksCache :=
  match f with
  | .err => .error ()
  | .ok keys cacheControl =>
    .ok { self with
            keys_by_kid := buildKeyMap keys,
            expires_at := now + JwksCache.parse_ttl_from_headers cacheControl self.ttl_seconds }

/-- First block of JwksCache.get_jwk: refresh when the cache is expired or
empty, swallowing a refresh failure (stale cache then keeps serving).  Returns
the resulting state and how many refresh attempts were made (0 or 1). -/
def JwksCache.refreshIfStale (self : JwksCache) (f : FetchResult) (now : Int) :
    JwksCache × Nat :=
  if self.expires_at ≤ now ∨ self.keys_by_kid = [] then
    match self.refresh f now with
    | .ok st1 => (st1, 1)
    | .error _ => (self, 1)
  else (self, 0)

/-- JwksCache.get_jwk: refresh if the cache is expired or empty, look the kid
up, and on a miss force exactly one more refresh (key-rotation recovery),
again swallowing a refresh failure.  Returns the looked-up JWK, the final
cache state, and the number of refresh attempts made during the call. -/
def JwksCache.get_jwk (self : JwksCache) (net : Nat → FetchResult) (now : Int)
    (kid : String) : Option JWK × JwksCache × Nat :=
  match self.refreshIfStale (net 0) now with
  | (st1, u1) =>
    match dictGet st1.keys_by_kid kid with
    | some j => (some j, st1, u1)
    | none =>
      match st1.refresh (net u1) now with
      | .ok st2 => (dictGet st2.keys_by_kid kid, st2, u1 + 1)
      | .error _ => (none, st1, u1 + 1)

/-- Leeway in seconds applied to time-based claims (CLOCK_SKEW_LEEWAY). -/
def CLOCK_SKEW_LEEWAY : Int := 10

/-- The algorithm allow-list passed to jwt.decode (ALGORITHMS). -/
def ALGORITHMS : List String := ["RS256"]

/-- Python exceptions relevant to this subsystem: PyJWT's InvalidTokenError
family and the ValueError raised by _public_key_from_jwk; both are subclasses
of Exception. -/
inductive PyErr where
  | invalidToken (msg : String)
  | valueError (msg : String)
deriving Repr, DecidableEq

/-- A reconstructed public verification key, abstracted to its material. -/
structure PubKey where
  material : String
deriving Repr, DecidableEq

/-- The _public_key_from_jwk builder: RSA and EC keys are supported, any other
kty raises ValueError. -/
def public_key_from_jwk (jwk : JWK) : Except PyErr PubKey :=
  if jwk.kty = "RSA" then .ok ⟨jwk.material⟩
  else if jwk.kty = "EC" then .ok ⟨jwk.material⟩
  else .error (.valueError "Unsupported key type")

/-- Decoded JOSE header of a token: the declared algorithm and optional kid. -/
structure TokenHeader where
  alg : String
  kid : Option String
deriving Repr, DecidableEq

/-- The registered and domain claims of a token payload that the verifier
inspects; a `none` field models absence of the claim. -/
structure TokenPayload where
  exp : Option Int
  nbf : Option Int
  iss : Option String
  aud : Option (List String)
  cid : Option String
deriving Repr, DecidableEq

/-- A compact-serialization token: `header` is `none` when the header segment
is malformed (get_unverified_header raises InvalidTokenError); `sigMaterial`
is the material of the key that actually signed the token, so the signature
verifies against a reconstructed key exactly when the materials agree. -/
structure Token where
  header : Option TokenHeader
  payload : TokenPayload
  sigMaterial : String
deriving Repr, DecidableEq

/-- Configured identity values from properties.py: expected audience, expected
issuer, and the permitted-client configuration string CIRCUIT_CLIENT_ID (the
source tests membership with the Python substring operator on this string). -/
structure Config where
  audience : String
  issuer : String
  circuitClientId : String
deriving Repr, DecidableEq

/-- Python substring containment: needle in hay for strings. -/
def listContainsSub (hay needle : List Char) : Bool :=
  if listStartsWith needle hay then true
  else
    match hay with
    | [] => false
    | _ :: t => listContainsSub t needle

/-- Python substring containment on strings: needle in hay. -/
def strContains (hay needle : String) : Bool :=
  listContainsSub hay.toList needle.toList

/-- True when the payload carries an nbf claim that is still immature after
adding the leeway (PyJWT validates nbf only when present). -/
def nbfImmature (p : TokenPayload) (leeway now : Int) : Bool :=
  match p.nbf with
  | some nbf => decide (now + leeway < nbf)
  | none => false

/-- PyJWT claim validation under the options passed by verify_token: the
require list is exp, iss and aud; nbf is validated only when present; exp and
nbf use the leeway; aud must contain the expected audience and iss must equal
the expected issuer. -/
def validateClaims (p : TokenPayload) (audience issuer : String) (leeway now : Int) :
    Except PyErr TokenPayload :=
  match p.exp with
  | none => .error (.invalidToken "Token is missing the exp claim")
  | some e =>
    match p.iss with
    | none => .error (.invalidToken "Token is missing the iss claim")
    | some i =>
      match p.aud with
      | none => .error (.invalidToken "Token is missing the aud claim")
      | some auds =>
        if nbfImmature p leeway now then
          .error (.invalidToken "The token is not yet valid")
        else if e ≤ now - leeway then
          .error (.invalidToken "Signature has expired")
        else if auds.contains audience then
          if i = issuer then .ok p
          else .error (.invalidToken "Invalid issuer")
        else .error (.invalidToken "Audience does not match")

/-- jwt.decode under the options used by verify_token: reject an algorithm
outside the allow-list before any cryptographic work, then verify the
signature against the supplied key, then validate the claims. -/
def jwt_decode (tok : Token) (key : PubKey) (algorithms : List String)
    (audience issuer : String) (leeway now : Int) : Except PyErr TokenPayload :=
  match tok.header with
  | none => .error (.invalidToken "Invalid header")
  | some h =>
    if algorithms.contains h.alg then
      if tok.sigMaterial = key.material then
        validateClaims tok.payload audience issuer leeway now
      else .error (.invalidToken "Signature verification failed")
    else .error (.invalidToken "The specified alg value is not allowed")

/-- Body of the try block of verify_token: build the public key from the JWK,
then decode; either step may raise. -/
def decodeWithJwk (jwk : JWK) (tok : Token) (audience issuer : String)
    (leeway now : Int) : Except PyErr TokenPayload :=
  match public_key_from_jwk jwk with
  | .error e => .error e
  | .ok pk => jwt_decode tok pk ALGORITHMS audience issuer leeway now

/-- verify_token with the exception channel explicit.  Every except clause of
the source returns False, and the final cid block accepts a present cid
whether or not the membership test succeeds (the failing branch of the inner
if falls through to the trailing return True), while an absent cid is
rejected. -/
def verify_token_exc (cfg : Config) (st : JwksCache) (net : Nat → FetchResult)
    (now : Int) (tok : Token) : Except PyErr Bool :=
  match tok.header with
  | none => .ok false
  | some h =>
    match h.kid with
    | none => .ok false
    | some kid =>
      if kid = "" then .ok false
      else
        match (st.get_jwk net now kid).1 with
        | none => .ok false
        | some jwk =>
          match decodeWithJwk jwk tok cfg.audience cfg.issuer CLOCK_SKEW_LEEWAY now with
          | .error _ => .ok false
          | .ok payload =>
            match payload.cid with
            | none => .ok false
            | some c => if strContains cfg.circuitClientId c then .ok true else .ok true

/-- verify_token as its caller sees it: a plain boolean. -/
def verify_token (cfg : Config) (st : JwksCache) (net : Nat → FetchResult)
    (now : Int) (tok : Token) : Bool :=
  match verify_token_exc cfg st net now tok with
  | .ok b => b
  | .error _ => false

/-- An inbound request as the middleware sees it: URL path, optional
Authorization header, Accept header. -/
structure Request where
  path : String
  authorization : Option String
  accept : String
deriving Repr, DecidableEq

/-- What one dispatch call does with a request: forward it to the wrapped
application, or answer 401/403 itself. -/
inductive DispatchOutcome where
  | forwarded
  | unauthorized (reason : String)
  | forbidden (reason : String)
deriving Repr, DecidableEq

/-- OAuth2Middleware.dispatch: health and readiness paths bypass auth, public
paths are allowed, and the token-validation block is commented out in the
source, so every remaining request is likewise forwarded.  The second
component records the tokens passed to verify_token during the call (none in
the current source). -/
def dispatch (publicPaths : List String) (req : Request) :
    DispatchOutcome × List String :=
  if req.path = "/healthz" ∨ req.path = "/readyz" then (.forwarded, [])
  else if publicPaths.contains req.path then (.forwarded, [])
  else (.forwarded, [])

/-- Left-biased choice on optional JWKs, used to describe dictionary lookups. -/
def optOr (a b : Option JWK) : Option JWK :=
  match a with
  | some x => some x
  | none => b

/-- The last entry of the list whose kid equals the given kid, the reference
description of what a Python dict comprehension binds a key to. -/
def lastWithKid : List JWK → String → Option JWK
  | [], _ => none
  | j :: rest, k => optOr (lastWithKid rest k) (if j.kid = some k then some j else none)

/-! Helper lemmas about the dictionary operations. -/

theorem optOr_assoc (a b c : Option JWK) : optOr (optOr a b) c = optOr a (optOr b c) := by
  cases a <;> rfl

theorem optOr_none_right (a : Option JWK) : optOr a none = a := by
  cases a <;> rfl

theorem dictGet_append (m l : List (String × JWK)) (k : String) :
    dictGet (m ++ l) k = optOr (dictGet m k) (dictGet l k) := by
  induction m with
  | nil => rfl
  | cons p rest ih =>
    obtain ⟨k0, v0⟩ := p
    by_cases h : k0 = k <;> simp [dictGet, h, ih, optOr]

theorem dictGet_not_mem (m : List (String × JWK)) (k : String)
    (h : k ∉ m.map Prod.fst) : dictGet m k = none := by
  induction m with
  | nil => rfl
  | cons p rest ih =>
    obtain ⟨k0, v0⟩ := p
    simp only [List.map_cons, List.mem_cons] at h
    push_neg at h
    rw [dictGet, if_neg (fun hk : k0 = k => h.1 hk.symm)]
    exact ih h.2

theorem dictGet_map_update_ne (m : List (String × JWK)) (kid k : String) (v : JWK)
    (h : k ≠ kid) :
    dictGet (m.map (fun p => if p.1 = kid then (kid, v) else p)) k = dictGet m k := by
  induction m with
  | nil => rfl
  | cons p rest ih =>
    obtain ⟨k0, v0⟩ := p
    show dictGet ((if k0 = kid then (kid, v) else (k0, v0)) ::
      rest.map (fun p => if p.1 = kid then (kid, v) else p)) k = dictGet ((k0, v0) :: rest) k
    by_cases hk : k0 = kid
    · rw [if_pos hk, dictGet, if_neg (fun hh : kid = k => h hh.symm),
        dictGet, if_neg (fun hh : k0 = k => h (hh.symm.trans hk))]
      exact ih
    · rw [if_neg hk, dictGet, dictGet]
      by_cases hk0 : k0 = k
      · rw [if_pos hk0, if_pos hk0]
      · rw [if_neg hk0, if_neg hk0]
        exact ih

theorem dictGet_map_update_self (m : List (String × JWK)) (kid : String) (v : JWK)
    (h : kid ∈ m.map Prod.fst) :
    dictGet (m.map (fun p => if p.1 = kid then (kid, v) else p)) kid = some v := by
  induction m with
  | nil => simp at h
  | cons p rest ih =>
    obtain ⟨k0, v0⟩ := p
    show dictGet ((if k0 = kid then (kid, v) else (k0, v0)) ::
      rest.map (fun p => if p.1 = kid then (kid, v) else p)) kid = some v
    by_cases hk : k0 = kid
    · rw [if_pos hk, dictGet, if_pos rfl]
    · rw [if_neg hk, dictGet, if_neg hk]
      apply ih
      simp only [List.map_cons, List.mem_cons] at h
      rcases h with h | h
      · exact absurd h.symm hk
      · exact h

theorem dictGet_dictInsert (m : List (String × JWK)) (kid k : String) (v : JWK) :
    dictGet (dictInsert m kid v) k = if k = kid then some v else dictGet m k := by
  unfold dictInsert
  by_cases hmem : kid ∈ m.map Prod.fst
  · rw [if_pos hmem]
    by_cases hk : k = kid
    · subst hk
      rw [if_pos rfl, dictGet_map_update_self m k v hmem]
    · rw [if_neg hk, dictGet_map_update_ne m kid k v hk]
  · rw [if_neg hmem, dictGet_append]
    by_cases hk : k = kid
    · subst hk
      rw [if_pos rfl, dictGet_not_mem m k hmem]
      show optOr none (dictGet [(k, v)] k) = some v
      rw [dictGet, if_pos rfl]
      rfl
    · rw [if_neg hk]
      have h1 : dictGet [(kid, v)] k = none := by
        rw [dictGet, if_neg (fun hh : kid = k => hk hh.symm)]
        rfl
      rw [h1, optOr_none_right]

theorem dictGet_foldl_jwkStep (keys : List JWK) (m : List (String × JWK)) (k : String) :
    dictGet (keys.foldl jwkStep m) k = optOr (lastWithKid keys k) (dictGet m k) := by
  induction keys generalizing m with
  | nil => rfl
  | cons j rest ih =>
    rw [List.foldl_cons, ih]
    have hhead : dictGet (jwkStep m j) k =
        optOr (if j.kid = some k then some j else none) (dictGet m k) := by
      unfold jwkStep
      cases hj : j.kid with
      | none =>
        rw [if_neg (fun hh => Option.noConfusion hh)]
        rfl
      | some kid =>
        rw [dictGet_dictInsert]
        by_cases hk : k = kid
        · subst hk
          rw [if_pos rfl, if_pos rfl]
          rfl
        · rw [if_neg hk, if_neg (fun hh => hk (Option.some.inj hh).symm)]
          rfl
    rw [hhead, show lastWithKid (j :: rest) k =
        optOr (lastWithKid rest k) (if j.kid = some k then some j else none) from rfl,
      optOr_assoc]

theorem dictGet_buildKeyMap (keys : List JWK) (k : String) :
    dictGet (buildKeyMap keys) k = lastWithKid keys k := by
  rw [buildKeyMap, dictGet_foldl_jwkStep]
  rw [show dictGet [] k = none from rfl, optOr_none_right]

theorem lastWithKid_kid (keys : List JWK) (k : String) (j : JWK)
    (h : lastWithKid keys k = some j) : j.kid = some k := by
  induction keys with
  | nil => exact Option.noConfusion h
  | cons a rest ih =>
    rw [lastWithKid] at h
    cases hr : lastWithKid rest k with
    | some x =>
      rw [hr] at h
      have h2 : some x = some j := h
      exact ih ((Option.some.inj h2) ▸ hr)
    | none =>
      rw [hr] at h
      by_cases ha : a.kid = some k
      · rw [if_pos ha] at h
        have h2 : some a = some j := h
        exact (Option.some.inj h2) ▸ ha
      · rw [if_neg ha] at h
        exact Option.noConfusion h

/-! Helper lemmas about the verifier. -/

theorem verify_token_exc_isOk (cfg : Config) (st : JwksCache) (net : Nat → FetchResult)
    (now : Int) (tok : Token) :
    ∃ b, verify_token_exc cfg st net now tok = .ok b := by
  unfold verify_token_exc
  repeat' split
  all_goals first
    | exact ⟨false, rfl⟩
    | exact ⟨true, rfl⟩

theorem verify_token_eq_exc (cfg : Config) (st : JwksCache) (net : Nat → FetchResult)
    (now : Int) (tok : Token) :
    verify_token cfg st net now tok = true ↔
      verify_token_exc cfg st net now tok = .ok true := by
  unfold verify_token
  obtain ⟨b, hb⟩ := verify_token_exc_isOk cfg st net now tok
  rw [hb]
  cases b <;> simp

theorem verify_token_exc_true (cfg : Config) (st : JwksCache) (net : Nat → FetchResult)
    (now : Int) (tok : Token)
    (h : verify_token_exc cfg st net now tok = .ok true) :
    ∃ hd kid jwk q, tok.header = some hd ∧ hd.kid = some kid ∧
      (st.get_jwk net now kid).1 = some jwk ∧
      decodeWithJwk jwk tok cfg.audience cfg.issuer CLOCK_SKEW_LEEWAY now = .ok q ∧
      ∃ c, q.cid = some c := by
  unfold verify_token_exc at h
  split at h
  · simp at h
  · rename_i hd hh
    split at h
    · simp at h
    · rename_i kid hk
      split at h
      · simp at h
      · split at h
        · simp at h
        · rename_i jwk hj
          split at h
          · simp at h
          · rename_i q hdz
            split at h
            · simp at h
            · rename_i c hc
              exact ⟨hd, kid, jwk, q, hh, hk, hj, hdz, c, hc⟩

theorem decodeWithJwk_ok (jwk : JWK) (tok : Token) (a i : String) (l n : Int)
    (q : TokenPayload) (h : decodeWithJwk jwk tok a i l n = .ok q) :
    jwt_decode tok ⟨jwk.material⟩ ALGORITHMS a i l n = .ok q := by
  unfold decodeWithJwk at h
  split at h
  · exact Except.noConfusion h
  · rename_i pk hpk
    unfold public_key_from_jwk at hpk
    split at hpk
    · rw [(Except.ok.inj hpk).symm] at h
      exact h
    · split at hpk
      · rw [(Except.ok.inj hpk).symm] at h
        exact h
      · exact Except.noConfusion hpk

theorem jwt_decode_ok (tok : Token) (key : PubKey) (algs : List String) (a i : String)
    (l n : Int) (q : TokenPayload) (h : jwt_decode tok key algs a i l n = .ok q) :
    ∃ hd, tok.header = some hd ∧ algs.contains hd.alg = true ∧
      tok.sigMaterial = key.material ∧
      validateClaims tok.payload a i l n = .ok q := by
  unfold jwt_decode at h
  split at h
  · exact Except.noConfusion h
  · rename_i hd hh
    split at h
    · rename_i ha
      split at h
      · rename_i hs
        exact ⟨hd, hh, ha, hs, h⟩
      · exact Except.noConfusion h
    · exact Except.noConfusion h

theorem validateClaims_ok (p : TokenPayload) (a i : String) (l n : Int)
    (q : TokenPayload) (h : validateClaims p a i l n = .ok q) :
    q = p ∧ (∃ e, p.exp = some e ∧ ¬ e ≤ n - l) ∧
    (∀ b, p.nbf = some b → b ≤ n + l) ∧
    (∃ auds, p.aud = some auds ∧ auds.contains a = true) ∧
    p.iss = some i := by
  unfold validateClaims at h
  split at h
  · exact Except.noConfusion h
  · rename_i e hexp
    split at h
    · exact Except.noConfusion h
    · rename_i i0 hiss
      split at h
      · exact Except.noConfusion h
      · rename_i auds haud
        split at h
        · exact Except.noConfusion h
        · rename_i hnbf
          split at h
          · exact Except.noConfusion h
          · rename_i hexpired
            split at h
            · rename_i hca
              split at h
              · rename_i hi
                refine ⟨(Except.ok.inj h).symm, ⟨e, hexp, hexpired⟩, ?_,
                  ⟨auds, haud, hca⟩, hi ▸ hiss⟩
                intro b hb
                by_contra hlt
                push_neg at hlt
                apply hnbf
                unfold nbfImmature
                rw [hb]
                exact decide_eq_true hlt
              · exact Except.noConfusion h
            · exact Except.noConfusion h

/-! Helper lemmas about the cache. -/

theorem refreshIfStale_count (st : JwksCache) (f : FetchResult) (now : Int) :
    (st.refreshIfStale f now).2 =
      if st.expires_at ≤ now ∨ st.keys_by_kid = [] then 1 else 0 := by
  unfold JwksCache.refreshIfStale
  split
  · split <;> rfl
  · rfl

theorem refreshIfStale_err (st : JwksCache) (now : Int) :
    st.refreshIfStale .err now =
      (st, if st.expires_at ≤ now ∨ st.keys_by_kid = [] then 1 else 0) := by
  unfold JwksCache.refreshIfStale
  split
  · rfl
  · rfl

theorem get_jwk_eq (st : JwksCache) (net : Nat → FetchResult) (now : Int) (kid : String)
    (st1 : JwksCache) (u1 : Nat) (hst : st.refreshIfStale (net 0) now = (st1, u1)) :
    st.get_jwk net now kid =
      match dictGet st1.keys_by_kid kid with
      | some j => (some j, st1, u1)
      | none =>
        match st1.refresh (net u1) now with
        | .ok st2 => (dictGet st2.keys_by_kid kid, st2, u1 + 1)
        | .error _ => (none, st1, u1 + 1) := by
  unfold JwksCache.get_jwk
  rw [hst]

/-! Claim theorems. -/

/-- C3: for every cache state and requested kid, one get_jwk call performs at
most two refresh attempts: at most one because the cache is empty or expired
(exactly one in that case), plus exactly one forced refresh if the kid is
absent after the first lookup; and if the kid is still absent after the forced
refresh (or the forced refresh fails), the call returns none at exactly two
phase counts u1 + 1, with no further refresh within the call.  st1 and u1 name
the state and attempt count after the expiry-driven phase. -/
theorem get_jwk_refresh_bound (st : JwksCache) (net : Nat → FetchResult) (now : Int)
    (kid : String) (st1 : JwksCache) (u1 : Nat)
    (hst : st.refreshIfStale (net 0) now = (st1, u1)) :
    (st.get_jwk net now kid).2.2 ≤ 2 ∧
    (st.get_jwk net now kid).2.2 =
      u1 + (if dictGet st1.keys_by_kid kid = none then 1 else 0) ∧
    u1 = (if st.expires_at ≤ now ∨ st.keys_by_kid = [] then 1 else 0) ∧
    (dictGet st1.keys_by_kid kid = none →
      ∀ st2, st1.refresh (net u1) now = .ok st2 → dictGet st2.keys_by_kid kid = none →
        (st.get_jwk net now kid).1 = none ∧ (st.get_jwk net now kid).2.2 = u1 + 1) ∧
    (dictGet st1.keys_by_kid kid = none → st1.refresh (net u1) now = .error () →
      (st.get_jwk net now kid).1 = none ∧ (st.get_jwk net now kid).2.2 = u1 + 1) := by
  have hg := get_jwk_eq st net now kid st1 u1 hst
  have hu1 : u1 = (if st.expires_at ≤ now ∨ st.keys_by_kid = [] then 1 else 0) := by
    have h0 := refreshIfStale_count st (net 0) now
    rw [hst] at h0
    exact h0
  have hub : u1 ≤ 1 := by
    rw [hu1]
    split <;> omega
  rw [hg]
  cases hd1 : dictGet st1.keys_by_kid kid with
  | some j =>
    refine ⟨?_, ?_, hu1, ?_, ?_⟩
    · show u1 ≤ 2
      omega
    · show u1 = u1 + (if (some j : Option JWK) = none then 1 else 0)
      simp
    · intro habs
      exact absurd habs (by simp)
    · intro habs
      exact absurd habs (by simp)
  | none =>
    cases hr : st1.refresh (net u1) now with
    | ok st2 =>
      refine ⟨?_, ?_, hu1, ?_, ?_⟩
      · show u1 + 1 ≤ 2
        omega
      · show u1 + 1 = u1 + (if (none : Option JWK) = none then 1 else 0)
        simp
      · intro _ st2b h2 h3
        have hst2 : st2 = st2b := Except.ok.inj h2
        subst hst2
        exact ⟨h3, rfl⟩
      · intro _ habs
        exact Except.noConfusion habs
    | error e =>
      refine ⟨?_, ?_, hu1, ?_, ?_⟩
      · show u1 + 1 ≤ 2
        omega
      · show u1 + 1 = u1 + (if (none : Option JWK) = none then 1 else 0)
        simp
      · intro _ st2b habs
        exact absurd habs (by simp)
      · intro _ _
        exact ⟨rfl, rfl⟩

/-- C3 witness at a cold cache with a failing network: two refresh attempts
and a none result. -/
theorem get_jwk_refresh_bound_witness :
    ((⟨[], 0, 3600⟩ : JwksCache).get_jwk (fun _ => .err) 100 "k1").2.2 ≤ 2 ∧
    ((⟨[], 0, 3600⟩ : JwksCache).get_jwk (fun _ => .err) 100 "k1").1 = none := by
  have h := get_jwk_refresh_bound ⟨[], 0, 3600⟩ (fun _ => .err) 100 "k1" ⟨[], 0, 3600⟩ 1 rfl
  exact ⟨h.1, (h.2.2.2.2 rfl rfl).1⟩

/-- C4: when the refresh attempt fails and the requested kid is present in the
previously loaded key map, get_jwk still returns that JWK and the cache state
(key map and expiry alike) is left unchanged. -/
theorem get_jwk_stale_served_on_refresh_failure (st : JwksCache) (net : Nat → FetchResult)
    (now : Int) (kid : String) (j : JWK)
    (hnet : net 0 = .err)
    (hk : dictGet st.keys_by_kid kid = some j) :
    (st.get_jwk net now kid).1 = some j ∧ (st.get_jwk net now kid).2.1 = st := by
  have hst : st.refreshIfStale (net 0) now =
      (st, if st.expires_at ≤ now ∨ st.keys_by_kid = [] then 1 else 0) := by
    rw [hnet]
    exact refreshIfStale_err st now
  have hg := get_jwk_eq st net now kid st _ hst
  rw [hg, hk]
  exact ⟨rfl, rfl⟩

/-- C4 witness: an expired cache whose refresh fails still serves the cached
key for k1, leaving the state untouched. -/
theorem get_jwk_stale_served_on_refresh_failure_witness :
    ((⟨[("k1", ⟨some "k1", "RSA", "m1"⟩)], 10, 3600⟩ : JwksCache).get_jwk
      (fun _ => .err) 500 "k1").1 = some ⟨some "k1", "RSA", "m1"⟩ ∧
    ((⟨[("k1", ⟨some "k1", "RSA", "m1"⟩)], 10, 3600⟩ : JwksCache).get_jwk
      (fun _ => .err) 500 "k1").2.1 = ⟨[("k1", ⟨some "k1", "RSA", "m1"⟩)], 10, 3600⟩ :=
  get_jwk_stale_served_on_refresh_failure ⟨[("k1", ⟨some "k1", "RSA", "m1"⟩)], 10, 3600⟩
    (fun _ => .err) 500 "k1" ⟨some "k1", "RSA", "m1"⟩ rfl rfl

/-- C7: a successful refresh never fails on header contents, and sets the
expiry to the fetch time plus the first parseable max-age directive when one
is present, and to the fetch time plus the default TTL of 3600 seconds when no
directive is present or every directive value is malformed. -/
theorem refresh_ttl_policy (st : JwksCache) (keys : List JWK) (cc : String) (now : Int)
    (httl : st.ttl_seconds = 3600) :
    (∃ st1, st.refresh (.ok keys cc) now = .ok st1) ∧
    (∀ st1, st.refresh (.ok keys cc) now = .ok st1 →
      (∀ v, findMaxAge (splitOnComma cc.toList) = some v → st1.expires_at = now + v) ∧
      (findMaxAge (splitOnComma cc.toList) = none → st1.expires_at = now + 3600)) := by
  constructor
  · exact ⟨_, rfl⟩
  · intro st1 h1
    have h1b : Except.ok (JwksCache.mk (buildKeyMap keys)
        (now + JwksCache.parse_ttl_from_headers cc st.ttl_seconds) st.ttl_seconds)
        = Except.ok st1 := h1
    have h2 := (Except.ok.inj h1b).symm
    subst h2
    constructor
    · intro v hv
      show now + JwksCache.parse_ttl_from_headers cc st.ttl_seconds = now + v
      unfold JwksCache.parse_ttl_from_headers
      rw [hv]
      rfl
    · intro hv
      show now + JwksCache.parse_ttl_from_headers cc st.ttl_seconds = now + 3600
      unfold JwksCache.parse_ttl_from_headers
      rw [hv, httl]
      rfl

/-- C7 witness: max-age=60 yields expiry 65 at fetch time 5, and a malformed
value falls back to 3600. -/
theorem refresh_ttl_policy_witness :
    (∃ st1, JwksCache.refresh ⟨[], 0, 3600⟩ (.ok [] "public, max-age=60") 5 = .ok st1) ∧
    (⟨buildKeyMap [], 65, 3600⟩ : JwksCache).expires_at = 5 + 60 := by
  have h := refresh_ttl_policy ⟨[], 0, 3600⟩ [] "public, max-age=60" 5 rfl
  refine ⟨h.1, ?_⟩
  have h2 := (h.2 ⟨buildKeyMap [], 65, 3600⟩ (by rfl)).1 60 (by rfl)
  exact h2

/-- C8: a successful refresh replaces the key map with exactly the fetched
entries that carry a kid, later duplicates winning; the new map is a function
of the fetched keys alone (nothing of the previous KeySet survives), every
lookup returns the last fetched entry with that kid, and every stored entry
carries the kid it is stored under (entries without a kid are dropped). -/
theorem refresh_replaces_keyset (st : JwksCache) (keys : List JWK) (cc : String)
    (now : Int) :
    ∀ st1, st.refresh (.ok keys cc) now = .ok st1 →
      st1.keys_by_kid = buildKeyMap keys ∧
      (∀ k, dictGet st1.keys_by_kid k = lastWithKid keys k) ∧
      (∀ k j, dictGet st1.keys_by_kid k = some j → j.kid = some k) := by
  intro st1 h1
  have h1b : Except.ok (JwksCache.mk (buildKeyMap keys)
      (now + JwksCache.parse_ttl_from_headers cc st.ttl_seconds) st.ttl_seconds)
      = Except.ok st1 := h1
  have h2 := (Except.ok.inj h1b).symm
  subst h2
  refine ⟨rfl, ?_, ?_⟩
  · intro k
    exact dictGet_buildKeyMap keys k
  · intro k j hj
    apply lastWithKid_kid keys k j
    rw [← dictGet_buildKeyMap]
    exact hj

/-- C8 witness: refreshing over an old key map with a duplicate-kid list keeps
only the fetched entries, the last duplicate winning and the kid-less entry
dropped. -/
theorem refresh_replaces_keyset_witness :
    dictGet (buildKeyMap [⟨some "a", "RSA", "1"⟩, ⟨some "a", "RSA", "2"⟩, ⟨none, "RSA", "x"⟩]) "a"
      = some ⟨some "a", "RSA", "2"⟩ ∧
    dictGet (buildKeyMap [⟨some "a", "RSA", "1"⟩, ⟨some "a", "RSA", "2"⟩, ⟨none, "RSA", "x"⟩]) "old"
      = none := by
  have h := refresh_replaces_keyset ⟨[("old", ⟨some "old", "RSA", "o"⟩)], 0, 3600⟩
    [⟨some "a", "RSA", "1"⟩, ⟨some "a", "RSA", "2"⟩, ⟨none, "RSA", "x"⟩] "" 50
    ⟨buildKeyMap [⟨some "a", "RSA", "1"⟩, ⟨some "a", "RSA", "2"⟩, ⟨none, "RSA", "x"⟩], 3650, 3600⟩
    (by rfl)
  constructor
  · rw [h.2.1 "a"]
    decide
  · rw [h.2.1 "old"]
    decide

/-- C5 (amended): when no KeySet has ever been loaded and every fetch attempt
fails, get_jwk returns the ordinary not-found result none after two failed
refresh attempts with the cache unchanged, and verify_token returns the
ordinary reject False without any exception escaping: the failure is absorbed
into a not-found/reject rather than propagated as a distinguished hard
failure. -/
theorem get_jwk_cold_failure_absorbed (cfg : Config) (st : JwksCache)
    (net : Nat → FetchResult) (now : Int) (kid : String) (tok : Token) (hd : TokenHeader)
    (hcold : st.keys_by_kid = [])
    (hnet : ∀ i, net i = .err)
    (hh : tok.header = some hd) (hkid : hd.kid = some kid) (hne : ¬ kid = "") :
    st.get_jwk net now kid = (none, st, 2) ∧
    verify_token_exc cfg st net now tok = .ok false := by
  have hst : st.refreshIfStale (net 0) now = (st, 1) := by
    rw [hnet 0]
    unfold JwksCache.refreshIfStale
    rw [if_pos (Or.inr hcold)]
    rfl
  have hd0 : dictGet st.keys_by_kid kid = none := by
    rw [hcold]
    rfl
  have hgj : st.get_jwk net now kid = (none, st, 2) := by
    rw [get_jwk_eq st net now kid st 1 hst, hd0, hnet 1]
    rfl
  refine ⟨hgj, ?_⟩
  have hj1 : (st.get_jwk net now kid).1 = none := by rw [hgj]
  simp [verify_token_exc, hh, hkid, hne, hj1]

/-- C5 witness for the amended statement, at a cold cache and failing
network. -/
theorem get_jwk_cold_failure_absorbed_witness :
    (⟨[], 5, 3600⟩ : JwksCache).get_jwk (fun _ => .err) 200 "kx" = (none, ⟨[], 5, 3600⟩, 2) ∧
    verify_token_exc ⟨"a", "i", "c"⟩ ⟨[], 5, 3600⟩ (fun _ => .err) 200
      ⟨some ⟨"RS256", some "kx"⟩, ⟨none, none, none, none, none⟩, "m"⟩ = .ok false :=
  get_jwk_cold_failure_absorbed ⟨"a", "i", "c"⟩ ⟨[], 5, 3600⟩ (fun _ => .err) 200 "kx"
    ⟨some ⟨"RS256", some "kx"⟩, ⟨none, none, none, none, none⟩, "m"⟩ ⟨"RS256", some "kx"⟩
    rfl (fun _ => rfl) rfl rfl (by decide)

/-- C5 counterexample: with a cold cache and a network on which every fetch
fails, the concrete call returns the ordinary not-found value none (not an
error), and verify_token returns the ordinary reject value: no hard failure
propagates up through get_jwk or verify_token, contradicting the claim that
this situation surfaces as a hard failure as opposed to an ordinary
not-found/reject result. -/
theorem get_jwk_cold_failure_not_hard_error_cex :
    (⟨[], 0, 3600⟩ : JwksCache).get_jwk (fun _ => .err) 100 "k1" = (none, ⟨[], 0, 3600⟩, 2) ∧
    verify_token_exc ⟨"aud1", "iss1", "c1"⟩ ⟨[], 0, 3600⟩ (fun _ => .err) 100
      ⟨some ⟨"RS256", some "k1"⟩, ⟨some 600, none, some "iss1", some ["aud1"], some "c1"⟩, "m1"⟩
      = .ok false := ⟨rfl, rfl⟩

/-- C2: a token whose well-formed header declares an algorithm outside the
ALGORITHMS allow-list is rejected by verify_token, regardless of cache state
and network, and in particular even when its signature material matches the
cached key. -/
theorem verify_token_rejects_disallowed_alg (cfg : Config) (st : JwksCache)
    (net : Nat → FetchResult) (now : Int) (tok : Token) (hd : TokenHeader)
    (hh : tok.header = some hd) (halg : ¬ ALGORITHMS.contains hd.alg = true) :
    verify_token cfg st net now tok = false := by
  cases hb : verify_token cfg st net now tok with
  | false => rfl
  | true =>
    exfalso
    obtain ⟨hd2, kid, jwk, q, hh2, hk2, hj2, hdz, c, hc⟩ :=
      verify_token_exc_true cfg st net now tok ((verify_token_eq_exc cfg st net now tok).mp hb)
    have hjd := decodeWithJwk_ok jwk tok cfg.audience cfg.issuer CLOCK_SKEW_LEEWAY now q hdz
    obtain ⟨hd3, hh3, halg3, hs3, hvc⟩ :=
      jwt_decode_ok tok ⟨jwk.material⟩ ALGORITHMS cfg.audience cfg.issuer
        CLOCK_SKEW_LEEWAY now q hjd
    have heq : hd3 = hd := Option.some.inj (hh3.symm.trans hh)
    exact halg (heq ▸ halg3)

/-- C2 witness: an HS256 token whose signature material matches the cached key
is still rejected. -/
theorem verify_token_rejects_disallowed_alg_witness :
    verify_token ⟨"aud1", "iss1", "c1"⟩ ⟨[("k1", ⟨some "k1", "RSA", "m1"⟩)], 1000, 3600⟩
      (fun _ => .err) 0
      ⟨some ⟨"HS256", some "k1"⟩, ⟨some 600, none, some "iss1", some ["aud1"], some "c1"⟩, "m1"⟩
      = false :=
  verify_token_rejects_disallowed_alg _ _ _ _ _ ⟨"HS256", some "k1"⟩ rfl (by decide)

/-- C6 counterexample: a correctly signed token with exp in the future, valid
iss and aud, a permitted cid, and no nbf claim at all is accepted, so
verify_token does not require the nbf claim to be present, contrary to the
claim. -/
theorem verify_token_accepts_missing_nbf_cex :
    verify_token ⟨"aud1", "iss1", "client1"⟩
      ⟨[("k1", ⟨some "k1", "RSA", "m1"⟩)], 1000000, 3600⟩ (fun _ => .err) 0
      ⟨some ⟨"RS256", some "k1"⟩,
        ⟨some 600, none, some "iss1", some ["aud1"], some "client1"⟩, "m1"⟩ = true ∧
    (⟨some ⟨"RS256", some "k1"⟩,
        ⟨some 600, none, some "iss1", some ["aud1"], some "client1"⟩,
        "m1"⟩ : Token).payload.nbf = none := ⟨rfl, rfl⟩

/-- C6 (amended): verify_token rejects every token whose payload lacks the exp
claim (exp is in the required-claims list); the nbf claim is not required to
be present, but whenever a token is accepted, each present time claim was
checked against the current time with the 10-second leeway: exp strictly
newer than now - 10 and nbf at most now + 10. -/
theorem verify_token_exp_required_nbf_optional (cfg : Config) (st : JwksCache)
    (net : Nat → FetchResult) (now : Int) (tok : Token) :
    (tok.payload.exp = none → verify_token cfg st net now tok = false) ∧
    (verify_token cfg st net now tok = true →
      (∀ e, tok.payload.exp = some e → ¬ e ≤ now - 10) ∧
      (∀ b, tok.payload.nbf = some b → b ≤ now + 10)) := by
  have key : verify_token cfg st net now tok = true →
      (∃ e, tok.payload.exp = some e ∧ ¬ e ≤ now - 10) ∧
      (∀ b, tok.payload.nbf = some b → b ≤ now + 10) := by
    intro hb
    obtain ⟨hd2, kid, jwk, q, hh2, hk2, hj2, hdz, c, hc⟩ :=
      verify_token_exc_true cfg st net now tok ((verify_token_eq_exc cfg st net now tok).mp hb)
    have hjd := decodeWithJwk_ok jwk tok cfg.audience cfg.issuer CLOCK_SKEW_LEEWAY now q hdz
    obtain ⟨hd3, hh3, halg3, hs3, hvc⟩ :=
      jwt_decode_ok tok ⟨jwk.material⟩ ALGORITHMS cfg.audience cfg.issuer
        CLOCK_SKEW_LEEWAY now q hjd
    obtain ⟨hq, hexp, hnbf, haud, hiss⟩ :=
      validateClaims_ok tok.payload cfg.audience cfg.issuer CLOCK_SKEW_LEEWAY now q hvc
    exact ⟨hexp, hnbf⟩
  constructor
  · intro hexp
    cases hb : verify_token cfg st net now tok with
    | false => rfl
    | true =>
      exfalso
      obtain ⟨⟨e, he, _⟩, _⟩ := key hb
      rw [hexp] at he
      exact Option.noConfusion he
  · intro hb
    obtain ⟨⟨e0, he0, hle⟩, hnbf⟩ := key hb
    refine ⟨?_, hnbf⟩
    intro e he
    rw [he0] at he
    exact (Option.some.inj he) ▸ hle

/-- C6 witness for the amended statement: a token lacking exp is rejected. -/
theorem verify_token_exp_required_nbf_optional_witness :
    verify_token ⟨"a", "i", "c"⟩ ⟨[("k1", ⟨some "k1", "RSA", "m"⟩)], 50, 3600⟩ (fun _ => .err) 0
      ⟨some ⟨"RS256", some "k1"⟩, ⟨none, none, some "i", some ["a"], some "c"⟩, "m"⟩ = false :=
  (verify_token_exp_required_nbf_optional ⟨"a", "i", "c"⟩
    ⟨[("k1", ⟨some "k1", "RSA", "m"⟩)], 50, 3600⟩ (fun _ => .err) 0
    ⟨some ⟨"RS256", some "k1"⟩, ⟨none, none, some "i", some ["a"], some "c"⟩, "m"⟩).1 rfl

/-- C1: contrary to the claim, verify_token accepts a token whose cid claim is
present but not contained in the configured permitted client identifier: the
failing branch of the inner membership test falls through to the trailing
return True, so only an absent cid is rejected.  At this concrete input the
cid "attacker" is not contained in the configured "legit-client", every other
check passes, and verify_token returns True. -/
theorem verify_token_accepts_mismatched_cid :
    verify_token ⟨"aud1", "iss1", "legit-client"⟩
      ⟨[("k1", ⟨some "k1", "RSA", "m1"⟩)], 1000000, 3600⟩ (fun _ => .err) 0
      ⟨some ⟨"RS256", some "k1"⟩,
        ⟨some 600, some 0, some "iss1", some ["aud1"], some "attacker"⟩, "m1"⟩ = true ∧
    strContains "legit-client" "attacker" = false := ⟨rfl, rfl⟩

/-- C9: for every request whose path is not a health or readiness path,
dispatch forwards the request to the wrapped application, passes no token to
verify_token, and its outcome is independent of the Authorization header. -/
theorem dispatch_ignores_authorization (publicPaths : List String) (r : Request)
    (h1 : ¬ r.path = "/healthz") (h2 : ¬ r.path = "/readyz") :
    dispatch publicPaths r = (.forwarded, []) ∧
    (∀ a : Option String,
      dispatch publicPaths { r with authorization := a } = dispatch publicPaths r) := by
  have hconst : ∀ rq : Request, dispatch publicPaths rq = (.forwarded, []) := by
    intro rq
    unfold dispatch
    split
    · rfl
    · split <;> rfl
  exact ⟨hconst r, fun a => (hconst _).trans (hconst r).symm⟩

/-- C9 witness: a non-health request carrying a bearer token is forwarded, and
changing the Authorization header does not change the outcome. -/
theorem dispatch_ignores_authorization_witness :
    dispatch [] ⟨"/api", some "Bearer t1", "application/json"⟩ = (.forwarded, []) ∧
    (∀ a : Option String,
      dispatch [] ⟨"/api", a, "application/json"⟩ =
        dispatch [] ⟨"/api", some "Bearer t1", "application/json"⟩) :=
  dispatch_ignores_authorization [] ⟨"/api", some "Bearer t1", "application/json"⟩
    (by decide) (by decide)

/-- C10: verify_token is total: for every configuration, cache state, network
behaviour and token, the explicit-exception semantics yields exactly the
ordinary boolean that verify_token returns — no exception ever escapes to the
caller. -/
theorem verify_token_total (cfg : Config) (st : JwksCache) (net : Nat → FetchResult)
    (now : Int) (tok : Token) :
    verify_token_exc cfg st net now tok = .ok (verify_token cfg st net now tok) := by
  obtain ⟨b, hb⟩ := verify_token_exc_isOk cfg st net now tok
  rw [hb]
  unfold verify_token
  rw [hb]

end McpAuth
